import Mathlib

set_option autoImplicit false

/-
Verification development for the `pipeline-components` compiler.

The repository compiles a tree of React elements (authored in TSX) into a
platform-specific CI/CD configuration document.  The parts embedded here are:

* `src/shared/utils.ts` — `flattenChildren`, `resolveElement`;
* `src/azure-devops/renderer.ts` — `collectSteps`, `AzureDevOpsYamlRenderer`
  (`compilePipeline`, `_compilePipeline`, `_compileStage`, `_compileJob`,
  `_compileStep`, `render`);
* `src/github-actions/renderer.ts` — `collectSteps`,
  `GitHubActionsYamlRenderer` (`compilePipeline`, `_compileWorkflow`,
  `_compileJob`, `_compileStep`, `convertToYamlFormat`, `render`);
* `src/renderer.ts` — the renderer registry (`getRenderer`, `renderPipeline`,
  `getFileExtension`).

JavaScript exceptions are modelled with `Except String`; a JS `null`/absent
result is `Option.none`.  JSON-like runtime values (prop bags, compiled
documents) are modelled by `JValue`; JS objects are association lists in
insertion order, with `insertAssign` giving JS record-assignment semantics
(overwrite in place, append when fresh).  `yaml.dump` (js-yaml, an external
dependency) is not modelled: `render` produces the object that the source
passes to `yaml.dump`.
-/

/-- A JSON-like runtime value: strings, integers, booleans, `null`,
`undefined`, arrays, and objects (association lists in insertion order). -/
inductive JValue where
  | jstr (s : String)
  | jint (n : Int)
  | jbool (b : Bool)
  | jnull
  | jundef
  | jarr (items : List JValue)
  | jobj (fields : List (String × JValue))

/-- JS record assignment `m[key] = value`: overwrites an existing entry in
place, otherwise appends at the end (JS object insertion order). -/
def insertAssign {α : Type} (fields : List (String × α)) (key : String) (value : α) :
    List (String × α) :=
  match fields with
  | [] => [(key, value)]
  | (k, v) :: rest =>
    if k = key then (k, value) :: rest else (k, v) :: insertAssign rest key value

/-- The closed key-renaming table of
`GitHubActionsYamlRenderer.convertToYamlFormat`: camelCase property names are
rewritten to their GitHub Actions wire spelling, all other keys unchanged. -/
def renameKey (key : String) : String :=
  if key = "runName" then "run-name"
  else if key = "runsOn" then "runs-on"
  else if key = "continueOnError" then "continue-on-error"
  else if key = "timeoutMinutes" then "timeout-minutes"
  else if key = "workingDirectory" then "working-directory"
  else if key = "failFast" then "fail-fast"
  else if key = "maxParallel" then "max-parallel"
  else if key = "cancelInProgress" then "cancel-in-progress"
  else if key = "branchesIgnore" then "branches-ignore"
  else if key = "tagsIgnore" then "tags-ignore"
  else if key = "pathsIgnore" then "paths-ignore"
  else if key = "pullRequest" then "pull_request"
  else if key = "workflowDispatch" then "workflow_dispatch"
  else if key = "workflowCall" then "workflow_call"
  else key

/-- Does `key` belong to the source-side (camelCase) renaming table? -/
def isTableKey (key : String) : Bool :=
  key = "runName" || key = "runsOn" || key = "continueOnError" ||
  key = "timeoutMinutes" || key = "workingDirectory" || key = "failFast" ||
  key = "maxParallel" || key = "cancelInProgress" || key = "branchesIgnore" ||
  key = "tagsIgnore" || key = "pathsIgnore" || key = "pullRequest" ||
  key = "workflowDispatch" || key = "workflowCall"

/-- Is this value JS `undefined`? -/
def isUndef : JValue → Bool
  | JValue.jundef => true
  | _ => false

mutual

/-- `GitHubActionsYamlRenderer.convertToYamlFormat`: recursively rename keys
per `renameKey`, recurse into arrays element-wise and objects entry-wise, and
drop object entries whose value is `undefined`.  Scalars (and `null`, which is
falsy in JS) are returned unchanged. -/
def convertToYamlFormat : JValue → JValue
  | JValue.jarr items => JValue.jarr (convertItems items)
  | JValue.jobj fields => JValue.jobj (convertFields fields [])
  | v => v

/-- `obj.map(item => this.convertToYamlFormat(item))`. -/
def convertItems : List JValue → List JValue
  | [] => []
  | v :: rest => convertToYamlFormat v :: convertItems rest

/-- The `for (const [key, value] of Object.entries(obj))` loop: builds the
result record by JS assignment, skipping entries whose value is `undefined`. -/
def convertFields : List (String × JValue) → List (String × JValue) → List (String × JValue)
  | [], acc => acc
  | (k, v) :: rest, acc =>
    if isUndef v then convertFields rest acc
    else convertFields rest (insertAssign acc (renameKey k) (convertToYamlFormat v))

end

/-- No key of an association list occurs twice (JS records built by
`insertAssign` always satisfy this). -/
def keysNodup : List (String × JValue) → Bool
  | [] => true
  | (k, _) :: rest => !(rest.any (fun kv => kv.1 = k)) && keysNodup rest

mutual

/-- Wire-normal form of a value after `convertToYamlFormat`: at every nesting
depth (through arrays and objects) no object key belongs to the camelCase
renaming table, no object entry has value `undefined`, and object keys are
pairwise distinct. -/
def wireNormal : JValue → Bool
  | JValue.jarr items => wireNormalItems items
  | JValue.jobj fields => keysNodup fields && wireNormalFields fields
  | _ => true

/-- `wireNormal` for every element of an array. -/
def wireNormalItems : List JValue → Bool
  | [] => true
  | v :: rest => wireNormal v && wireNormalItems rest

/-- Each entry has a non-table key, a non-`undefined` value, and a
`wireNormal` value. -/
def wireNormalFields : List (String × JValue) → Bool
  | [] => true
  | (k, v) :: rest => !(isTableKey k) && !(isUndef v) && wireNormal v && wireNormalFields rest

end


-- ===== The element tree (Tree Model) =====

/-- `undefined`-or-string prop, as passed to `yaml.dump`. -/
def jOptStr : Option String → JValue
  | none => JValue.jundef
  | some s => JValue.jstr s

/-- `undefined`-or-boolean prop. -/
def jOptBool : Option Bool → JValue
  | none => JValue.jundef
  | some b => JValue.jbool b

/-- `undefined`-or-number prop. -/
def jOptInt : Option Int → JValue
  | none => JValue.jundef
  | some n => JValue.jint n

/-- `undefined`-or-arbitrary-value prop. -/
def jOpt : Option JValue → JValue
  | none => JValue.jundef
  | some v => v

namespace AzureDevOps

/-- Props of the Azure DevOps `Step` component (source type `TaskNode`, plus
the `enabled` flag that `_compileStep` strips).  Open-shaped props
(`inputs`, `env`) are modelled as `JValue`s. -/
structure StepProps where
  task : Option String := none
  inputs : Option JValue := none
  condition : Option String := none
  continueOnError : Option Bool := none
  displayName : Option String := none
  env : Option JValue := none
  enabled : Option Bool := none

/-- Compiled Azure DevOps step (source type `TaskNode`): the step props with
`enabled` destructured away (`const { enabled, ...step } = el.props`). -/
structure TaskNode where
  task : Option String
  inputs : Option JValue
  condition : Option String
  continueOnError : Option Bool
  displayName : Option String
  env : Option JValue

/-- Props of the Azure DevOps `Job` component.  The field `vars` models the
source key `variables` (a reserved token in Lean). -/
structure JobProps where
  job : Option String := none
  displayName : Option String := none
  dependsOn : Option JValue := none
  condition : Option String := none
  continueOnError : Option Bool := none
  pool : Option JValue := none
  vars : Option JValue := none
  workspace : Option JValue := none

/-- Compiled Azure DevOps job (source type `JobNode`), fields in the order
`_compileJob` builds its result object. -/
structure JobNode where
  job : Option String
  displayName : Option String
  condition : Option String
  continueOnError : Option Bool
  dependsOn : Option JValue
  pool : Option JValue
  workspace : Option JValue
  vars : Option JValue
  steps : List TaskNode

/-- Props of the Azure DevOps `Stage` component. -/
structure StageProps where
  stage : Option String := none
  displayName : Option String := none
  pool : Option JValue := none
  dependsOn : Option JValue := none
  condition : Option String := none
  vars : Option JValue := none

/-- Compiled Azure DevOps stage (source type `StageNode`), fields in the
order `_compileStage` builds its result object. -/
structure StageNode where
  stage : Option String
  displayName : Option String
  pool : Option JValue
  dependsOn : Option JValue
  condition : Option String
  vars : Option JValue
  jobs : List JobNode

/-- Props of the Azure DevOps `Pipeline` component. -/
structure PipelineProps where
  trigger : Option JValue := none
  pool : Option JValue := none
  vars : Option JValue := none

/-- The top-level bucket of a compiled pipeline: the source `PipelineNode`
type is a union carrying exactly one of `stages`, `jobs` or `steps`. -/
inductive PipelineBucket where
  | stages (l : List StageNode)
  | jobs (l : List JobNode)
  | steps (l : List TaskNode)

/-- Compiled Azure DevOps pipeline (source type `PipelineNode`). -/
structure PipelineNode where
  trigger : Option JValue
  pool : Option JValue
  vars : Option JValue
  bucket : PipelineBucket

end AzureDevOps

namespace GitHubActions

/-- Props of the GitHub Actions `Step` component (source type `StepNode`).
The source returns `el.props` verbatim as the compiled step, so the same
structure is both the props and the compiled step.  `ifCond` models the
source key `if`, `withInputs` the source key `with` (Lean keywords). -/
structure StepProps where
  name : Option String := none
  id : Option String := none
  ifCond : Option String := none
  withInputs : Option JValue := none
  env : Option JValue := none
  continueOnError : Option Bool := none
  timeoutMinutes : Option Int := none
  workingDirectory : Option String := none
  uses : Option String := none
  run : Option String := none
  shell : Option String := none

/-- Props of the GitHub Actions `Job` component (source `JobNode` fields
without `steps`, plus the required `id` prop). -/
structure JobProps where
  id : Option String := none
  name : Option String := none
  runsOn : Option JValue := none
  needs : Option JValue := none
  ifCond : Option String := none
  permissions : Option JValue := none
  env : Option JValue := none
  defaults : Option JValue := none
  strategy : Option JValue := none
  continueOnError : Option Bool := none
  timeoutMinutes : Option Int := none
  container : Option JValue := none
  services : Option JValue := none

/-- Compiled GitHub Actions job (source type `JobNode`), fields in the order
`_compileJob` builds its result object. -/
structure JobNode where
  name : Option String
  runsOn : Option JValue
  needs : Option JValue
  ifCond : Option String
  permissions : Option JValue
  env : Option JValue
  defaults : Option JValue
  strategy : Option JValue
  continueOnError : Option Bool
  timeoutMinutes : Option Int
  container : Option JValue
  services : Option JValue
  steps : List StepProps

/-- Props of the GitHub Actions `Workflow` component.  The field
`onTriggers` models the source key `on` (a reserved token in Lean). -/
structure WorkflowProps where
  name : Option String := none
  runName : Option String := none
  onTriggers : Option JValue := none
  permissions : Option JValue := none
  env : Option JValue := none
  defaults : Option JValue := none
  concurrency : Option JValue := none

/-- Compiled GitHub Actions workflow (source type `WorkflowNode`); `jobs` is
a JS record keyed by job id, in insertion order. -/
structure WorkflowNode where
  name : Option String
  runName : Option String
  onTriggers : Option JValue
  permissions : Option JValue
  env : Option JValue
  defaults : Option JValue
  concurrency : Option JValue
  jobs : List (String × JobNode)

end GitHubActions

/-- A React element tree as consumed by the compilers.  Platform-primitive
components (`Pipeline`/`Stage`/`Job`/`Step` for Azure DevOps,
`Workflow`/`Job`/`Step` for GitHub Actions) and `React.Fragment` are explicit
constructors; `custom` is a user-defined (function or class) component whose
pure expansion rule, once invoked, yields `result` — `ok (some e)` for a rule
returning subtree `e`, `ok none` for a rule rendering `null`, and `error msg`
for a rule that throws.  `nonElement` is a child that fails
`React.isValidElement` (string, number, `null`, `false`, …).  The root
components carry `children` as an `Option` because `compilePipeline` tests
the JS truthiness of `props.children` (`none` models `undefined`). -/
inductive Elem where
  | fragment (children : List Elem)
  | adoPipeline (props : AzureDevOps.PipelineProps) (children : Option (List Elem))
  | adoStage (props : AzureDevOps.StageProps) (children : List Elem)
  | adoJob (props : AzureDevOps.JobProps) (children : List Elem)
  | adoStep (props : AzureDevOps.StepProps)
  | ghWorkflow (props : GitHubActions.WorkflowProps) (children : Option (List Elem))
  | ghJob (props : GitHubActions.JobProps) (children : List Elem)
  | ghStep (props : GitHubActions.StepProps)
  | custom (result : Except String (Option Elem))
  | nonElement

/-- The `props.children` slot of an element, as a list
(`React.Children.forEach` over `undefined` or a missing slot visits
nothing). -/
def childrenOf : Elem → List Elem
  | Elem.fragment cs => cs
  | Elem.adoPipeline _ none => []
  | Elem.adoPipeline _ (some cs) => cs
  | Elem.adoStage _ cs => cs
  | Elem.adoJob _ cs => cs
  | Elem.adoStep _ => []
  | Elem.ghWorkflow _ none => []
  | Elem.ghWorkflow _ (some cs) => cs
  | Elem.ghJob _ cs => cs
  | Elem.ghStep _ => []
  | Elem.custom _ => []
  | Elem.nonElement => []

-- ===== Shared utilities (src/shared/utils.ts) =====

/-- `flattenChildren` (src/shared/utils.ts): depth-first flattening of a
children list — a `React.Fragment` splices its (recursively flattened)
children in place, a non-element child is skipped, every other element is
kept as-is. -/
def flattenChildren : List Elem → List Elem
  | [] => []
  | Elem.fragment cs :: rest => flattenChildren cs ++ flattenChildren rest
  | Elem.nonElement :: rest => flattenChildren rest
  | e :: rest => e :: flattenChildren rest
termination_by l => sizeOf l
decreasing_by
all_goals simp_wf
all_goals omega

/-- `resolveElement` (src/shared/utils.ts): a custom (non-primitive function
or class) component is invoked once on its props, yielding its expansion
result (or propagating a thrown error); primitive components and fragments
are returned unchanged.  The source predicate `isPrimitiveComponent` is
structural here: primitives are exactly the non-`custom` constructors. -/
def resolveElement : Elem → Except String (Option Elem)
  | Elem.custom result => result
  | e => Except.ok (some e)

/-- The `collectSteps` function that both platform renderers define
(src/azure-devops/renderer.ts and src/github-actions/renderer.ts are
textually identical up to the platform `Step` component, passed here as
`isStep`).  For each valid element child: resolve it, repeatedly re-resolving
while the result is still a custom component (the source while-loop,
modelled by re-dispatching the expansion result at the head of the list);
skip a `null` resolution; push a resolved `Step`; otherwise recurse into the
children of the resolved element.  A throwing expansion rule aborts the whole
collection. -/
def collectStepsBy (isStep : Elem → Bool) : List Elem → Except String (List Elem)
  | [] => Except.ok []
  | Elem.nonElement :: rest => collectStepsBy isStep rest
  | Elem.custom (Except.error msg) :: _ => Except.error msg
  | Elem.custom (Except.ok none) :: rest => collectStepsBy isStep rest
  | Elem.custom (Except.ok (some e)) :: rest => collectStepsBy isStep (e :: rest)
  | child :: rest =>
    if isStep child then
      match collectStepsBy isStep rest with
      | Except.error msg => Except.error msg
      | Except.ok tl => Except.ok (child :: tl)
    else
      match collectStepsBy isStep (childrenOf child) with
      | Except.error msg => Except.error msg
      | Except.ok here =>
        match collectStepsBy isStep rest with
        | Except.error msg => Except.error msg
        | Except.ok tl => Except.ok (here ++ tl)
termination_by l => sizeOf l
decreasing_by
all_goals simp_wf
all_goals try omega
all_goals
  have hch : sizeOf (childrenOf child) ≤ sizeOf child := by
    cases child <;> try (simp [childrenOf] <;> omega)
    all_goals rename_i cs h
    all_goals cases cs <;> simp [childrenOf] <;> omega
all_goals omega

/-- The classification predicate used by the platform compilers
(`_compilePipeline`, `_compileStage`, `_compileWorkflow`): `resolved = resolveElement(child); resolved &&
resolved.type === Kind` (a single resolution step, a throwing rule
propagates). -/
def isOfKindResolved (isKind : Elem → Bool) (child : Elem) : Except String Bool := do
  match ← resolveElement child with
  | none => pure false
  | some r => pure (isKind r)

namespace AzureDevOps

/-- Identity test `element.type === Step` for the Azure DevOps `Step`
component. -/
def isStepElement : Elem → Bool
  | Elem.adoStep _ => true
  | _ => false

/-- Identity test `element.type === Job`. -/
def isJobElement : Elem → Bool
  | Elem.adoJob _ _ => true
  | _ => false

/-- Identity test `element.type === Stage`. -/
def isStageElement : Elem → Bool
  | Elem.adoStage _ _ => true
  | _ => false

/-- `collectSteps` (src/azure-devops/renderer.ts). -/
def collectSteps : List Elem → Except String (List Elem) :=
  collectStepsBy isStepElement

/-- `AzureDevOpsYamlRenderer._compileStep`: resolve; a step whose `enabled`
prop is set and falsy is skipped (returns `null`, no error); otherwise the
props minus `enabled` become the compiled `TaskNode`.  In the source this is
only ever invoked on elements already resolved to `Step`, so the blind props
cast never observes another kind; that unreachable branch is modelled as
`none`. -/
def compileStep (element : Elem) : Except String (Option TaskNode) := do
  match ← resolveElement element with
  | none => pure none
  | some (Elem.adoStep p) =>
    if p.enabled = some false then pure none
    else
      pure (some { task := p.task, inputs := p.inputs, condition := p.condition,
                   continueOnError := p.continueOnError, displayName := p.displayName,
                   env := p.env })
  | some _ => pure none

/-- `AzureDevOpsYamlRenderer._compileJob`: resolve, deep-collect all `Step`
descendants of the children (through fragments and custom components),
compile each and drop the `null`s (`.map(...).filter(Boolean)`). -/
def compileJob (element : Elem) : Except String (Option JobNode) := do
  match ← resolveElement element with
  | none => pure none
  | some (Elem.adoJob p children) => do
    let collected ← collectSteps children
    let compiled ← collected.mapM compileStep
    pure (some { job := p.job, displayName := p.displayName, condition := p.condition,
                 continueOnError := p.continueOnError, dependsOn := p.dependsOn,
                 pool := p.pool, workspace := p.workspace, vars := p.vars,
                 steps := compiled.filterMap id })
  | some _ => pure none

/-- The source line `typeof pool === "string" ? ... : pool`: a string pool
prop becomes a map with a single `name` entry. -/
def normalizePool : Option JValue → Option JValue
  | some (JValue.jstr s) => some (JValue.jobj [("name", JValue.jstr s)])
  | p => p

/-- `AzureDevOpsYamlRenderer._compileStage`: resolve, flatten the children,
compile those that resolve to `Job` (in order), and copy the stage fields. -/
def compileStage (element : Elem) : Except String (Option StageNode) := do
  match ← resolveElement element with
  | none => pure none
  | some (Elem.adoStage p children) => do
    let jobs ← (flattenChildren children).foldlM (fun acc child => do
      match ← resolveElement child with
      | some (Elem.adoJob jp cs) =>
        match ← compileJob (Elem.adoJob jp cs) with
        | some j => pure (acc ++ [j])
        | none => pure acc
      | _ => pure acc) []
    pure (some { stage := p.stage, displayName := p.displayName,
                 pool := normalizePool p.pool, dependsOn := p.dependsOn,
                 condition := p.condition, vars := p.vars, jobs := jobs })
  | some _ => pure none

/-- `AzureDevOpsYamlRenderer._compilePipeline`: resolve the root, flatten its
children, classify them into `Stage`/`Job`/`Step` buckets (each test
resolving the child once), and build the document from the
highest-priority non-empty bucket; with children present but no recognized
child, fall back to an empty `stages` bucket. -/
def compilePipelineCore (element : Elem) : Except String (Option PipelineNode) := do
  match ← resolveElement element with
  | none => pure none
  | some (Elem.adoPipeline p children) => do
    let childElements := flattenChildren (children.getD [])
    let stages ← childElements.filterM (isOfKindResolved isStageElement)
    let jobs ← childElements.filterM (isOfKindResolved isJobElement)
    let steps ← childElements.filterM (isOfKindResolved isStepElement)
    if stages.length > 0 then do
      let compiled ← stages.mapM (fun child => do
        match ← resolveElement child with
        | some r => compileStage r
        | none => pure none)
      pure (some { trigger := p.trigger, pool := p.pool, vars := p.vars,
                   bucket := PipelineBucket.stages (compiled.filterMap id) })
    else if jobs.length > 0 then do
      let compiled ← jobs.mapM (fun child => do
        match ← resolveElement child with
        | some r => compileJob r
        | none => pure none)
      pure (some { trigger := p.trigger, pool := p.pool, vars := p.vars,
                   bucket := PipelineBucket.jobs (compiled.filterMap id) })
    else if steps.length > 0 then do
      let compiled ← steps.mapM (fun child => do
        match ← resolveElement child with
        | some r => compileStep r
        | none => pure none)
      pure (some { trigger := p.trigger, pool := p.pool, vars := p.vars,
                   bucket := PipelineBucket.steps (compiled.filterMap id) })
    else
      pure (some { trigger := p.trigger, pool := p.pool, vars := p.vars,
                   bucket := PipelineBucket.stages [] })
  | some _ => pure none

/-- `AzureDevOpsYamlRenderer.compilePipeline`: `null` unless the element is a
`Pipeline`; `null` when `props.children` is absent (JS-falsy); otherwise
`_compilePipeline`. -/
def compilePipeline (element : Elem) : Except String (Option PipelineNode) :=
  match element with
  | Elem.adoPipeline p children =>
    match children with
    | none => Except.ok none
    | some cs => compilePipelineCore (Elem.adoPipeline p (some cs))
  | _ => Except.ok none

/-- `AzureDevOpsYamlRenderer.canRender`: a valid element of type
`Pipeline`. -/
def canRender : Elem → Bool
  | Elem.adoPipeline _ _ => true
  | _ => false

/-- `AzureDevOpsYamlRenderer.getFileExtension`. -/
def fileExtension : String := "yaml"

/-- Compiled `TaskNode` as the JS object handed to `yaml.dump` (absent props
are `undefined`; js-yaml omits `undefined` entries when dumping). -/
def taskNodeToJ (t : TaskNode) : JValue :=
  JValue.jobj [("task", jOptStr t.task), ("inputs", jOpt t.inputs),
    ("condition", jOptStr t.condition), ("continueOnError", jOptBool t.continueOnError),
    ("displayName", jOptStr t.displayName), ("env", jOpt t.env)]

/-- Compiled `JobNode` as a JS object, fields in the order `_compileJob`
builds them. -/
def jobNodeToJ (j : JobNode) : JValue :=
  JValue.jobj [("job", jOptStr j.job), ("displayName", jOptStr j.displayName),
    ("condition", jOptStr j.condition), ("continueOnError", jOptBool j.continueOnError),
    ("dependsOn", jOpt j.dependsOn), ("pool", jOpt j.pool),
    ("workspace", jOpt j.workspace), ("variables", jOpt j.vars),
    ("steps", JValue.jarr (j.steps.map taskNodeToJ))]

/-- Compiled `StageNode` as a JS object, fields in the order `_compileStage`
builds them. -/
def stageNodeToJ (s : StageNode) : JValue :=
  JValue.jobj [("stage", jOptStr s.stage), ("displayName", jOptStr s.displayName),
    ("pool", jOpt s.pool), ("dependsOn", jOpt s.dependsOn),
    ("condition", jOptStr s.condition), ("variables", jOpt s.vars),
    ("jobs", JValue.jarr (s.jobs.map jobNodeToJ))]

/-- Compiled `PipelineNode` as a JS object: the root fields plus exactly one
of the `stages`/`jobs`/`steps` buckets. -/
def pipelineNodeToJ (p : PipelineNode) : JValue :=
  JValue.jobj ([("trigger", jOpt p.trigger), ("pool", jOpt p.pool),
    ("variables", jOpt p.vars)] ++
    (match p.bucket with
     | PipelineBucket.stages l => [("stages", JValue.jarr (l.map stageNodeToJ))]
     | PipelineBucket.jobs l => [("jobs", JValue.jarr (l.map jobNodeToJ))]
     | PipelineBucket.steps l => [("steps", JValue.jarr (l.map taskNodeToJ))]))

/-- `AzureDevOpsYamlRenderer.render`: the source calls
`yaml.dump(pipeline, ...)`; we model the object handed to the dumper. -/
def render (p : PipelineNode) : JValue := pipelineNodeToJ p

end AzureDevOps

namespace GitHubActions

/-- Identity test `element.type === Step` for the GitHub Actions `Step`
component. -/
def isStepElement : Elem → Bool
  | Elem.ghStep _ => true
  | _ => false

/-- Identity test `element.type === Job`. -/
def isJobElement : Elem → Bool
  | Elem.ghJob _ _ => true
  | _ => false

/-- `collectSteps` (src/github-actions/renderer.ts). -/
def collectSteps : List Elem → Except String (List Elem) :=
  collectStepsBy isStepElement

/-- JS truthiness of an optional string prop (`undefined` and the empty
string are falsy). -/
def truthyStr : Option String → Bool
  | none => false
  | some s => !(s = "")

/-- `GitHubActionsYamlRenderer._compileStep`: resolve, then validate that the
step props carry `uses` or `run` but not both (truthily): both set throws
`Step cannot have both "uses" and "run" properties`; neither set throws
`Step must have either "uses" or "run" property`; otherwise the props are
returned verbatim as the compiled step. -/
def compileStep (element : Elem) : Except String (Option StepProps) := do
  match ← resolveElement element with
  | none => pure none
  | some (Elem.ghStep step) =>
    if truthyStr step.uses && truthyStr step.run then
      Except.error "Step cannot have both \"uses\" and \"run\" properties"
    else if !truthyStr step.uses && !truthyStr step.run then
      Except.error "Step must have either \"uses\" or \"run\" property"
    else pure (some step)
  | some _ => pure none

/-- `GitHubActionsYamlRenderer._compileJob`: resolve, deep-collect all `Step`
descendants of the children, compile each (validation may throw) and drop
the `null`s. -/
def compileJob (element : Elem) : Except String (Option JobNode) := do
  match ← resolveElement element with
  | none => pure none
  | some (Elem.ghJob p children) => do
    let collected ← collectSteps children
    let compiled ← collected.mapM compileStep
    pure (some { name := p.name, runsOn := p.runsOn, needs := p.needs,
                 ifCond := p.ifCond, permissions := p.permissions, env := p.env,
                 defaults := p.defaults, strategy := p.strategy,
                 continueOnError := p.continueOnError,
                 timeoutMinutes := p.timeoutMinutes, container := p.container,
                 services := p.services, steps := compiled.filterMap id })
  | some _ => pure none

/-- The source expression `jobProps.id || "job"` — the record key of a
compiled job (an absent or
empty/falsy `id` falls back to the literal `job`). -/
def jobKey : Option String → String
  | none => "job"
  | some s => if s = "" then "job" else s

/-- `GitHubActionsYamlRenderer._compileWorkflow`: resolve the root, flatten
its children, keep those that resolve to `Job`; with no jobs the result is
`null`; otherwise compile each job into a record keyed by `jobKey` (JS record assignment: a
duplicate id overwrites in place). -/
def compileWorkflow (element : Elem) : Except String (Option WorkflowNode) := do
  match ← resolveElement element with
  | none => pure none
  | some (Elem.ghWorkflow p children) => do
    let childElements := flattenChildren (children.getD [])
    let jobs ← childElements.filterM (isOfKindResolved isJobElement)
    if jobs.length = 0 then pure none
    else do
      let compiledJobs ← jobs.foldlM (fun acc child => do
        match ← resolveElement child with
        | none => pure acc
        | some resolved => do
          match ← compileJob resolved with
          | none => pure acc
          | some job =>
            let jid := match resolved with
              | Elem.ghJob jp _ => jobKey jp.id
              | _ => jobKey none
            pure (insertAssign acc jid job)) []
      pure (some { name := p.name, runName := p.runName, onTriggers := p.onTriggers,
                   permissions := p.permissions, env := p.env,
                   defaults := p.defaults, concurrency := p.concurrency,
                   jobs := compiledJobs })
  | some _ => pure none

/-- `GitHubActionsYamlRenderer.compilePipeline`: `null` unless the element is
a `Workflow`; `null` when `props.children` is absent (JS-falsy); otherwise
`_compileWorkflow`. -/
def compilePipeline (element : Elem) : Except String (Option WorkflowNode) :=
  match element with
  | Elem.ghWorkflow p children =>
    match children with
    | none => Except.ok none
    | some cs => compileWorkflow (Elem.ghWorkflow p (some cs))
  | _ => Except.ok none

/-- `GitHubActionsYamlRenderer.canRender`: a valid element of type
`Workflow`. -/
def canRender : Elem → Bool
  | Elem.ghWorkflow _ _ => true
  | _ => false

/-- `GitHubActionsYamlRenderer.getFileExtension`. -/
def fileExtension : String := "yml"

/-- Compiled step as the JS object handed to the serializer (source keys,
including `if` and `with`). -/
def stepNodeToJ (s : StepProps) : JValue :=
  JValue.jobj [("name", jOptStr s.name), ("id", jOptStr s.id),
    ("if", jOptStr s.ifCond), ("with", jOpt s.withInputs), ("env", jOpt s.env),
    ("continueOnError", jOptBool s.continueOnError),
    ("timeoutMinutes", jOptInt s.timeoutMinutes),
    ("workingDirectory", jOptStr s.workingDirectory), ("uses", jOptStr s.uses),
    ("run", jOptStr s.run), ("shell", jOptStr s.shell)]

/-- Compiled `JobNode` as a JS object, fields in the order `_compileJob`
builds them. -/
def jobNodeToJ (j : JobNode) : JValue :=
  JValue.jobj [("name", jOptStr j.name), ("runsOn", jOpt j.runsOn),
    ("needs", jOpt j.needs), ("if", jOptStr j.ifCond),
    ("permissions", jOpt j.permissions), ("env", jOpt j.env),
    ("defaults", jOpt j.defaults), ("strategy", jOpt j.strategy),
    ("continueOnError", jOptBool j.continueOnError),
    ("timeoutMinutes", jOptInt j.timeoutMinutes), ("container", jOpt j.container),
    ("services", jOpt j.services),
    ("steps", JValue.jarr (j.steps.map stepNodeToJ))]

/-- Compiled `WorkflowNode` as a JS object, fields in the order
`_compileWorkflow` builds them; `jobs` is the id-keyed record. -/
def workflowNodeToJ (w : WorkflowNode) : JValue :=
  JValue.jobj [("name", jOptStr w.name), ("runName", jOptStr w.runName),
    ("on", jOpt w.onTriggers), ("permissions", jOpt w.permissions),
    ("env", jOpt w.env), ("defaults", jOpt w.defaults),
    ("concurrency", jOpt w.concurrency),
    ("jobs", JValue.jobj (w.jobs.map (fun kv => (kv.1, jobNodeToJ kv.2))))]

/-- `GitHubActionsYamlRenderer.render`: the source calls
`yaml.dump(this.convertToYamlFormat(workflow), ...)`; we model the object
handed to the dumper. -/
def render (w : WorkflowNode) : JValue := convertToYamlFormat (workflowNodeToJ w)

end GitHubActions

-- ===== The renderer registry (src/renderer.ts) =====

/-- The registered Platform Schema Compilers, in registration order
(`const renderers = [azureDevOpsYamlRenderer, gitHubActionsYamlRenderer]`). -/
inductive RendererId where
  | azureDevOps
  | gitHubActions
deriving DecidableEq

/-- The module-level ordered renderer list. -/
def renderers : List RendererId := [RendererId.azureDevOps, RendererId.gitHubActions]

/-- Dispatch `renderer.canRender(pipeline)`. -/
def canRender : RendererId → Elem → Bool
  | RendererId.azureDevOps, e => AzureDevOps.canRender e
  | RendererId.gitHubActions, e => GitHubActions.canRender e

/-- `getRenderer` (src/renderer.ts): the first registered renderer whose
`canRender` accepts the node; `null` when none does. -/
def getRenderer (pipeline : Elem) : Option RendererId :=
  renderers.find? (fun r => canRender r pipeline)

/-- `renderPipeline` (src/renderer.ts): `null` without a renderer, `null`
when compilation yields no document, otherwise the rendered document (the
object handed to `yaml.dump`); a compilation exception propagates. -/
def renderPipeline (pipeline : Elem) : Except String (Option JValue) :=
  match getRenderer pipeline with
  | none => Except.ok none
  | some RendererId.azureDevOps => do
    match ← AzureDevOps.compilePipeline pipeline with
    | none => pure none
    | some doc => pure (some (AzureDevOps.render doc))
  | some RendererId.gitHubActions => do
    match ← GitHubActions.compilePipeline pipeline with
    | none => pure none
    | some doc => pure (some (GitHubActions.render doc))

/-- `getFileExtension` (src/renderer.ts): `null` without a renderer,
otherwise the extension of the selected renderer. -/
def getFileExtension (pipeline : Elem) : Option String :=
  match getRenderer pipeline with
  | none => none
  | some RendererId.azureDevOps => some AzureDevOps.fileExtension
  | some RendererId.gitHubActions => some GitHubActions.fileExtension

mutual

/-- Modelled from the spec (§4.2 Leaf Collector, §8): the document-order list
of Step leaves of one element after full expansion — a user-defined node is
replaced by its expansion result (nothing for a `null`-rendering or throwing
rule), a platform `Step` is itself a leaf, and any other element contributes
the leaves of its children in order.  This definition follows the wording of
the spec; claim C1 compares it against the source collector
`collectStepsBy`. -/
def stepLeaves (isStep : Elem → Bool) : Elem → List Elem
  | Elem.custom (Except.ok (some inner)) => stepLeaves isStep inner
  | Elem.custom (Except.ok none) => []
  | Elem.custom (Except.error _) => []
  | Elem.nonElement => []
  | Elem.fragment cs =>
    if isStep (Elem.fragment cs) then [Elem.fragment cs]
    else stepLeavesList isStep cs
  | Elem.adoPipeline p none =>
    if isStep (Elem.adoPipeline p none) then [Elem.adoPipeline p none]
    else []
  | Elem.adoPipeline p (some cs) =>
    if isStep (Elem.adoPipeline p (some cs)) then [Elem.adoPipeline p (some cs)]
    else stepLeavesList isStep cs
  | Elem.adoStage p cs =>
    if isStep (Elem.adoStage p cs) then [Elem.adoStage p cs]
    else stepLeavesList isStep cs
  | Elem.adoJob p cs =>
    if isStep (Elem.adoJob p cs) then [Elem.adoJob p cs]
    else stepLeavesList isStep cs
  | Elem.adoStep p =>
    if isStep (Elem.adoStep p) then [Elem.adoStep p]
    else []
  | Elem.ghWorkflow p none =>
    if isStep (Elem.ghWorkflow p none) then [Elem.ghWorkflow p none]
    else []
  | Elem.ghWorkflow p (some cs) =>
    if isStep (Elem.ghWorkflow p (some cs)) then [Elem.ghWorkflow p (some cs)]
    else stepLeavesList isStep cs
  | Elem.ghJob p cs =>
    if isStep (Elem.ghJob p cs) then [Elem.ghJob p cs]
    else stepLeavesList isStep cs
  | Elem.ghStep p =>
    if isStep (Elem.ghStep p) then [Elem.ghStep p]
    else []
termination_by e => sizeOf e

/-- The concatenated `stepLeaves` of a list of sibling elements, in order. -/
def stepLeavesList (isStep : Elem → Bool) : List Elem → List Elem
  | [] => []
  | e :: rest => stepLeaves isStep e ++ stepLeavesList isStep rest
termination_by l => sizeOf l

end

/-- A tower of user-defined nodes: `nestedCustom sp n` is a custom node whose
expansion rule returns another custom node, `n` levels deep, before finally
yielding the step `sp`. -/
def nestedCustom (sp : GitHubActions.StepProps) : Nat → Elem
  | 0 => Elem.ghStep sp
  | n + 1 => Elem.custom (Except.ok (some (nestedCustom sp n)))

-- ===== Theorems about the embedded definitions =====

theorem renameKey_not_table (k : String) : isTableKey (renameKey k) = false := by
  by_cases h1 : k = "runName"
  · subst h1; decide
  by_cases h2 : k = "runsOn"
  · subst h2; decide
  by_cases h3 : k = "continueOnError"
  · subst h3; decide
  by_cases h4 : k = "timeoutMinutes"
  · subst h4; decide
  by_cases h5 : k = "workingDirectory"
  · subst h5; decide
  by_cases h6 : k = "failFast"
  · subst h6; decide
  by_cases h7 : k = "maxParallel"
  · subst h7; decide
  by_cases h8 : k = "cancelInProgress"
  · subst h8; decide
  by_cases h9 : k = "branchesIgnore"
  · subst h9; decide
  by_cases h10 : k = "tagsIgnore"
  · subst h10; decide
  by_cases h11 : k = "pathsIgnore"
  · subst h11; decide
  by_cases h12 : k = "pullRequest"
  · subst h12; decide
  by_cases h13 : k = "workflowDispatch"
  · subst h13; decide
  by_cases h14 : k = "workflowCall"
  · subst h14; decide
  simp [renameKey, isTableKey, h1, h2, h3, h4, h5, h6, h7, h8, h9, h10, h11, h12, h13, h14]

theorem renameKey_id_of_not_table (k : String) (h : isTableKey k = false) :
    renameKey k = k := by
  unfold isTableKey at h
  simp only [Bool.or_eq_false_iff, decide_eq_false_iff_not] at h
  rcases h with ⟨⟨⟨⟨⟨⟨⟨⟨⟨⟨⟨⟨⟨h1, h2⟩, h3⟩, h4⟩, h5⟩, h6⟩, h7⟩, h8⟩, h9⟩, h10⟩, h11⟩, h12⟩, h13⟩, h14⟩
  simp [renameKey, h1, h2, h3, h4, h5, h6, h7, h8, h9, h10, h11, h12, h13, h14]

theorem isUndef_convertToYamlFormat (v : JValue) :
    isUndef (convertToYamlFormat v) = isUndef v := by
  cases v <;> simp [convertToYamlFormat, isUndef]

theorem insertAssign_any (fields : List (String × JValue)) (k : String) (v : JValue)
    (q : String) :
    (insertAssign fields k v).any (fun kv => kv.1 = q)
      = (fields.any (fun kv => kv.1 = q) || (k = q)) := by
  induction fields with
  | nil => simp [insertAssign]
  | cons kv rest ih =>
    obtain ⟨k0, v0⟩ := kv
    by_cases h : k0 = k
    · subst h
      by_cases hq : k0 = q
      · simp [insertAssign, hq]
      · simp [insertAssign, hq]
    · by_cases hq : k0 = q
      · subst hq
        simp [insertAssign, h]
      · simp [insertAssign, h, hq, ih]

theorem insertAssign_fresh (fields : List (String × JValue)) (k : String) (v : JValue)
    (h : fields.any (fun kv => kv.1 = k) = false) :
    insertAssign fields k v = fields ++ [(k, v)] := by
  induction fields with
  | nil => simp [insertAssign]
  | cons kv rest ih =>
    obtain ⟨k0, v0⟩ := kv
    simp only [List.any_cons, Bool.or_eq_false_iff, decide_eq_false_iff_not] at h
    simp [insertAssign, h.1, ih h.2]

theorem keysNodup_insertAssign (fields : List (String × JValue)) (k : String) (v : JValue)
    (h : keysNodup fields = true) :
    keysNodup (insertAssign fields k v) = true := by
  induction fields with
  | nil => simp [insertAssign, keysNodup]
  | cons kv rest ih =>
    obtain ⟨k0, v0⟩ := kv
    simp only [keysNodup, Bool.and_eq_true, Bool.not_eq_true'] at h
    by_cases hk : k0 = k
    · subst hk
      simp [insertAssign, keysNodup, h.1, h.2]
    · have hk2 : ¬k = k0 := fun hh => hk hh.symm
      simp [insertAssign, hk, keysNodup, insertAssign_any, h.1, h.2, ih h.2, hk2]

theorem wireNormalFields_insertAssign (fields : List (String × JValue)) (k : String)
    (v : JValue) (hf : wireNormalFields fields = true) (hk : isTableKey k = false)
    (hv : isUndef v = false) (hn : wireNormal v = true) :
    wireNormalFields (insertAssign fields k v) = true := by
  induction fields with
  | nil => simp [insertAssign, wireNormalFields, hk, hv, hn]
  | cons kv rest ih =>
    obtain ⟨k0, v0⟩ := kv
    simp only [wireNormalFields, Bool.and_eq_true, Bool.not_eq_true'] at hf
    obtain ⟨⟨⟨ha, hb⟩, hc⟩, hd⟩ := hf
    by_cases h : k0 = k
    · subst h
      simp [insertAssign, wireNormalFields, ha, hv, hn, hd]
    · simp [insertAssign, h, wireNormalFields, ha, hb, hc, ih hd]

mutual

theorem convertToYamlFormat_wireNormal (v : JValue) :
    wireNormal (convertToYamlFormat v) = true := by
  match v with
  | JValue.jarr items =>
    simpa [convertToYamlFormat, wireNormal] using convertItems_wireNormal items
  | JValue.jobj fields =>
    have h := convertFields_wireNormal fields [] (by simp [keysNodup])
      (by simp [wireNormalFields])
    simp [convertToYamlFormat, wireNormal, h.1, h.2]
  | JValue.jstr s => simp [convertToYamlFormat, wireNormal]
  | JValue.jint n => simp [convertToYamlFormat, wireNormal]
  | JValue.jbool b => simp [convertToYamlFormat, wireNormal]
  | JValue.jnull => simp [convertToYamlFormat, wireNormal]
  | JValue.jundef => simp [convertToYamlFormat, wireNormal]
termination_by sizeOf v

theorem convertItems_wireNormal (items : List JValue) :
    wireNormalItems (convertItems items) = true := by
  match items with
  | [] => simp [convertItems, wireNormalItems]
  | v :: rest =>
    simp [convertItems, wireNormalItems, convertToYamlFormat_wireNormal v,
      convertItems_wireNormal rest]
termination_by sizeOf items

theorem convertFields_wireNormal (fields acc : List (String × JValue))
    (h1 : keysNodup acc = true) (h2 : wireNormalFields acc = true) :
    keysNodup (convertFields fields acc) = true ∧
      wireNormalFields (convertFields fields acc) = true := by
  match fields with
  | [] => simpa [convertFields] using ⟨h1, h2⟩
  | (k, v) :: rest =>
    by_cases hv : isUndef v = true
    · simpa [convertFields, hv] using convertFields_wireNormal rest acc h1 h2
    · have hv2 : isUndef v = false := by simpa using hv
      have hnew1 : keysNodup (insertAssign acc (renameKey k) (convertToYamlFormat v)) = true :=
        keysNodup_insertAssign _ _ _ h1
      have hnew2 : wireNormalFields (insertAssign acc (renameKey k) (convertToYamlFormat v)) = true :=
        wireNormalFields_insertAssign _ _ _ h2 (renameKey_not_table k)
          (by rw [isUndef_convertToYamlFormat]; exact hv2)
          (convertToYamlFormat_wireNormal v)
      simpa [convertFields, hv2] using convertFields_wireNormal rest _ hnew1 hnew2
termination_by sizeOf fields

end

mutual

theorem convertToYamlFormat_id (v : JValue) (h : wireNormal v = true) :
    convertToYamlFormat v = v := by
  match v with
  | JValue.jarr items =>
    have hi := convertItems_id items (by simpa [wireNormal] using h)
    simp [convertToYamlFormat, hi]
  | JValue.jobj fields =>
    simp only [wireNormal, Bool.and_eq_true] at h
    have hfe := convertFields_id fields [] h.1 h.2 (by intro q hq; simp)
    simp [convertToYamlFormat, hfe]
  | JValue.jstr s => simp [convertToYamlFormat]
  | JValue.jint n => simp [convertToYamlFormat]
  | JValue.jbool b => simp [convertToYamlFormat]
  | JValue.jnull => simp [convertToYamlFormat]
  | JValue.jundef => simp [convertToYamlFormat]
termination_by sizeOf v

theorem convertItems_id (items : List JValue) (h : wireNormalItems items = true) :
    convertItems items = items := by
  match items with
  | [] => simp [convertItems]
  | v :: rest =>
    simp only [wireNormalItems, Bool.and_eq_true] at h
    simp [convertItems, convertToYamlFormat_id v h.1, convertItems_id rest h.2]
termination_by sizeOf items

theorem convertFields_id (fields acc : List (String × JValue))
    (hnd : keysNodup fields = true) (hf : wireNormalFields fields = true)
    (hdisj : ∀ q, fields.any (fun kv => kv.1 = q) = true →
      acc.any (fun kv => kv.1 = q) = false) :
    convertFields fields acc = acc ++ fields := by
  match fields with
  | [] => simp [convertFields]
  | (k, v) :: rest =>
    simp only [wireNormalFields, Bool.and_eq_true, Bool.not_eq_true'] at hf
    obtain ⟨⟨⟨ha, hb⟩, hc⟩, hd⟩ := hf
    simp only [keysNodup, Bool.and_eq_true, Bool.not_eq_true'] at hnd
    have hkey : renameKey k = k := renameKey_id_of_not_table k ha
    have hconv : convertToYamlFormat v = v := convertToYamlFormat_id v hc
    have hfreshacc : acc.any (fun kv => kv.1 = k) = false := hdisj k (by simp)
    have hins : insertAssign acc k v = acc ++ [(k, v)] :=
      insertAssign_fresh _ _ _ hfreshacc
    have hdisj2 : ∀ q, rest.any (fun kv => kv.1 = q) = true →
        (acc ++ [(k, v)]).any (fun kv => kv.1 = q) = false := by
      intro q hq
      have hrest := hdisj q (by simp [hq])
      have hkq : ¬k = q := by
        intro he
        subst he
        rw [hnd.1] at hq
        exact Bool.false_ne_true hq
      simp [hrest, hkq]
    have htail := convertFields_id rest (acc ++ [(k, v)]) hnd.2 hd hdisj2
    calc convertFields ((k, v) :: rest) acc
        = convertFields rest (acc ++ [(k, v)]) := by
          simp [convertFields, hb, hkey, hconv, hins]
      _ = (acc ++ [(k, v)]) ++ rest := htail
      _ = acc ++ (k, v) :: rest := by simp
termination_by sizeOf fields

end

theorem convertToYamlFormat_idem (v : JValue) :
    convertToYamlFormat (convertToYamlFormat v) = convertToYamlFormat v :=
  convertToYamlFormat_id _ (convertToYamlFormat_wireNormal v)

/-- C9: The key-renaming transform `convertToYamlFormat` applied before
serialization renames every key of its closed lookup table at every nesting
depth of maps and arrays (its output is `wireNormal`: no table key and no
`undefined`-valued map entry survives at any depth, through both objects and
arrays), it is idempotent, and the renaming follows the documented table
(runName, runsOn, continueOnError, timeoutMinutes, workingDirectory,
failFast, maxParallel, cancelInProgress, branchesIgnore, tagsIgnore,
pathsIgnore, pullRequest, workflowDispatch, workflowCall). -/
theorem c9_convert_renames_idempotent_drops_undefined :
    (∀ v : JValue, wireNormal (convertToYamlFormat v) = true) ∧
    (∀ v : JValue, convertToYamlFormat (convertToYamlFormat v) = convertToYamlFormat v) ∧
    (renameKey "runName" = "run-name" ∧ renameKey "runsOn" = "runs-on" ∧
     renameKey "continueOnError" = "continue-on-error" ∧
     renameKey "timeoutMinutes" = "timeout-minutes" ∧
     renameKey "workingDirectory" = "working-directory" ∧
     renameKey "failFast" = "fail-fast" ∧
     renameKey "maxParallel" = "max-parallel" ∧
     renameKey "cancelInProgress" = "cancel-in-progress" ∧
     renameKey "branchesIgnore" = "branches-ignore" ∧
     renameKey "tagsIgnore" = "tags-ignore" ∧
     renameKey "pathsIgnore" = "paths-ignore" ∧
     renameKey "pullRequest" = "pull_request" ∧
     renameKey "workflowDispatch" = "workflow_dispatch" ∧
     renameKey "workflowCall" = "workflow_call") :=
  ⟨convertToYamlFormat_wireNormal, convertToYamlFormat_idem, by decide⟩

/-- C4: A `Pipeline` (resp. `Workflow`) root with no declared children
(`props.children` absent) compiles to `null`, and `renderPipeline`
consequently returns `null` rather than a serialized document — for any root
props, in particular `trigger="none"`. -/
theorem c4_empty_root_compiles_to_null (p : AzureDevOps.PipelineProps)
    (w : GitHubActions.WorkflowProps) :
    AzureDevOps.compilePipeline (Elem.adoPipeline p none) = Except.ok none ∧
    renderPipeline (Elem.adoPipeline p none) = Except.ok none ∧
    GitHubActions.compilePipeline (Elem.ghWorkflow w none) = Except.ok none ∧
    renderPipeline (Elem.ghWorkflow w none) = Except.ok none :=
  ⟨rfl, rfl, rfl, rfl⟩

/-- C2: GitHub Actions step validation — a step whose `uses` and `run` props
are both (truthily) set fails compilation with the error naming both; a step
with neither set fails with the error naming the required alternatives.  (The
Azure DevOps leaf type carries no `uses`/`run` behaviors at all, so the
invariant is vacuous there.) -/
theorem c2_step_mutual_exclusion_validation (sp : GitHubActions.StepProps) :
    (GitHubActions.truthyStr sp.uses = true → GitHubActions.truthyStr sp.run = true →
      GitHubActions.compileStep (Elem.ghStep sp) =
        Except.error "Step cannot have both \"uses\" and \"run\" properties") ∧
    (GitHubActions.truthyStr sp.uses = false → GitHubActions.truthyStr sp.run = false →
      GitHubActions.compileStep (Elem.ghStep sp) =
        Except.error "Step must have either \"uses\" or \"run\" property") := by
  constructor
  · intro h1 h2
    simp [GitHubActions.compileStep, resolveElement, Bind.bind, Except.bind, h1, h2]
  · intro h1 h2
    simp [GitHubActions.compileStep, resolveElement, Bind.bind, Except.bind, h1, h2]

/-- Witness for C2 at concrete steps: both behaviors set, and neither set. -/
theorem c2_step_mutual_exclusion_validation_witness :
    (GitHubActions.truthyStr (some "actions/checkout@v4") = true ∧
     GitHubActions.truthyStr (some "npm test") = true ∧
     GitHubActions.compileStep
        (Elem.ghStep { uses := some "actions/checkout@v4", run := some "npm test" }) =
       Except.error "Step cannot have both \"uses\" and \"run\" properties") ∧
    (GitHubActions.truthyStr (none : Option String) = false ∧
     GitHubActions.compileStep (Elem.ghStep {}) =
       Except.error "Step must have either \"uses\" or \"run\" property") :=
  ⟨⟨by decide, by decide,
    (c2_step_mutual_exclusion_validation
      { uses := some "actions/checkout@v4", run := some "npm test" }).1
      (by decide) (by decide)⟩,
   ⟨by decide,
    (c2_step_mutual_exclusion_validation {}).2 (by decide) (by decide)⟩⟩

theorem collectSteps_nestedCustom (sp : GitHubActions.StepProps) (n : Nat) :
    GitHubActions.collectSteps [nestedCustom sp n] = Except.ok [Elem.ghStep sp] := by
  induction n with
  | zero =>
    simp [GitHubActions.collectSteps, collectStepsBy, nestedCustom,
      GitHubActions.isStepElement]
  | succ n ih =>
    simpa [GitHubActions.collectSteps, collectStepsBy, nestedCustom] using ih

/-- C7 (counterexample): re-expanding a user-defined node 1001 times — past
the 1000-level guard the claim asserts — does not fail with any
`ExpansionError`: the collector succeeds and returns the step.  No
recursion-depth guard exists anywhere in the code. -/
theorem c7_counterexample_no_expansion_error_at_depth_1001 :
    GitHubActions.collectSteps [nestedCustom { uses := some "actions/checkout@v4" } 1001] =
      Except.ok [Elem.ghStep { uses := some "actions/checkout@v4" }] :=
  collectSteps_nestedCustom { uses := some "actions/checkout@v4" } 1001

/-- C7 (amended): expansion of user-defined nodes enforces no recursion-depth
guard — re-expansion of a user-defined node to any depth `n` (including
beyond 1000) succeeds with no `ExpansionError`, yielding the step it finally
expands to; expansion terminates for every input tree of this model, where
expansion rules are pure and their results are finite trees. -/
theorem c7_no_depth_guard_expansion_succeeds (sp : GitHubActions.StepProps) (n : Nat) :
    GitHubActions.collectSteps [nestedCustom sp n] = Except.ok [Elem.ghStep sp] :=
  collectSteps_nestedCustom sp n

/-- C8: The renderer registry returns the first renderer (in registration
order Azure DevOps, then GitHub Actions) whose `canRender` accepts the root;
when neither accepts it the registry yields `null` without throwing, and
`renderPipeline` and `getFileExtension` then return `null`. -/
theorem c8_registry_first_match_and_null (e : Elem) :
    (AzureDevOps.canRender e = true → getRenderer e = some RendererId.azureDevOps) ∧
    (AzureDevOps.canRender e = false → GitHubActions.canRender e = true →
      getRenderer e = some RendererId.gitHubActions) ∧
    (AzureDevOps.canRender e = false → GitHubActions.canRender e = false →
      getRenderer e = none ∧ renderPipeline e = Except.ok none ∧
      getFileExtension e = none) := by
  refine ⟨fun h1 => ?_, fun h1 h2 => ?_, fun h1 h2 => ?_⟩
  · simp [getRenderer, renderers, canRender, h1]
  · simp [getRenderer, renderers, canRender, h1, h2]
  · have hg : getRenderer e = none := by
      simp [getRenderer, renderers, canRender, h1, h2]
    exact ⟨hg, by simp [renderPipeline, hg], by simp [getFileExtension, hg]⟩

/-- Witness for C8 at concrete roots: a `Pipeline` root picks the Azure
DevOps renderer, a `Workflow` root picks the GitHub Actions renderer, and a
non-element root gets no renderer and `null` results. -/
theorem c8_registry_first_match_and_null_witness :
    (AzureDevOps.canRender (Elem.adoPipeline {} none) = true ∧
     getRenderer (Elem.adoPipeline {} none) = some RendererId.azureDevOps) ∧
    (GitHubActions.canRender (Elem.ghWorkflow {} none) = true ∧
     getRenderer (Elem.ghWorkflow {} none) = some RendererId.gitHubActions) ∧
    (getRenderer Elem.nonElement = none ∧
     renderPipeline Elem.nonElement = Except.ok none ∧
     getFileExtension Elem.nonElement = none) :=
  ⟨⟨rfl, (c8_registry_first_match_and_null (Elem.adoPipeline {} none)).1 rfl⟩,
   ⟨rfl, (c8_registry_first_match_and_null (Elem.ghWorkflow {} none)).2.1 rfl rfl⟩,
   (c8_registry_first_match_and_null Elem.nonElement).2.2 rfl rfl⟩

/-- C5: When a root has children but none of them classify into any
recognized bucket, the platforms diverge: the Azure DevOps compiler returns a
document with an empty top-level `stages` bucket plus the root properties,
while the GitHub Actions compiler returns `null` (no document). -/
theorem c5_unclassified_children_platform_divergence
    (p : AzureDevOps.PipelineProps) (cs : List Elem)
    (w : GitHubActions.WorkflowProps) (cs2 : List Elem)
    (h1 : (flattenChildren cs).filterM (isOfKindResolved AzureDevOps.isStageElement) =
      Except.ok [])
    (h2 : (flattenChildren cs).filterM (isOfKindResolved AzureDevOps.isJobElement) =
      Except.ok [])
    (h3 : (flattenChildren cs).filterM (isOfKindResolved AzureDevOps.isStepElement) =
      Except.ok [])
    (h4 : (flattenChildren cs2).filterM (isOfKindResolved GitHubActions.isJobElement) =
      Except.ok []) :
    AzureDevOps.compilePipeline (Elem.adoPipeline p (some cs)) =
      Except.ok (some { trigger := p.trigger, pool := p.pool, vars := p.vars,
                        bucket := AzureDevOps.PipelineBucket.stages [] }) ∧
    GitHubActions.compilePipeline (Elem.ghWorkflow w (some cs2)) = Except.ok none := by
  constructor
  · simp [AzureDevOps.compilePipeline, AzureDevOps.compilePipelineCore, resolveElement,
      Bind.bind, Except.bind, Pure.pure, Except.pure, h1, h2, h3]
  · simp [GitHubActions.compilePipeline, GitHubActions.compileWorkflow, resolveElement,
      Bind.bind, Except.bind, Pure.pure, Except.pure, h4]

/-- Witness for C5: roots whose only child is a non-element (so no child
classifies into any bucket). -/
theorem c5_unclassified_children_platform_divergence_witness :
    ((flattenChildren [Elem.nonElement]).filterM
        (isOfKindResolved AzureDevOps.isStageElement) = Except.ok [] ∧
     (flattenChildren [Elem.nonElement]).filterM
        (isOfKindResolved AzureDevOps.isJobElement) = Except.ok [] ∧
     (flattenChildren [Elem.nonElement]).filterM
        (isOfKindResolved AzureDevOps.isStepElement) = Except.ok [] ∧
     (flattenChildren [Elem.nonElement]).filterM
        (isOfKindResolved GitHubActions.isJobElement) = Except.ok []) ∧
    (AzureDevOps.compilePipeline (Elem.adoPipeline {} (some [Elem.nonElement])) =
      Except.ok (some { trigger := none, pool := none, vars := none,
                        bucket := AzureDevOps.PipelineBucket.stages [] }) ∧
     GitHubActions.compilePipeline (Elem.ghWorkflow {} (some [Elem.nonElement])) =
      Except.ok none) := by
  have hf : flattenChildren [Elem.nonElement] = [] := by simp [flattenChildren]
  have h1 : (flattenChildren [Elem.nonElement]).filterM
      (isOfKindResolved AzureDevOps.isStageElement) = Except.ok [] := by
    rw [hf]; rfl
  have h2 : (flattenChildren [Elem.nonElement]).filterM
      (isOfKindResolved AzureDevOps.isJobElement) = Except.ok [] := by
    rw [hf]; rfl
  have h3 : (flattenChildren [Elem.nonElement]).filterM
      (isOfKindResolved AzureDevOps.isStepElement) = Except.ok [] := by
    rw [hf]; rfl
  have h4 : (flattenChildren [Elem.nonElement]).filterM
      (isOfKindResolved GitHubActions.isJobElement) = Except.ok [] := by
    rw [hf]; rfl
  exact ⟨⟨h1, h2, h3, h4⟩,
    c5_unclassified_children_platform_divergence {} [Elem.nonElement] {}
      [Elem.nonElement] h1 h2 h3 h4⟩

/-- C10: In the GitHub Actions compiler, compiled jobs are keyed by their
`id` prop in a record — a `Job` without an `id` is keyed under the literal
`job`, and when two `Job` children carry the same id the later one
silently overwrites the earlier (JS record assignment), so the compiled
document holds one entry where two jobs were declared. -/
theorem c10_job_record_keying_and_overwrite (w : GitHubActions.WorkflowProps)
    (jp1 jp2 jp3 : GitHubActions.JobProps) (i : String) (hi : ¬i = "")
    (h1 : jp1.id = some i) (h2 : jp2.id = some i) (h3 : jp3.id = none)
    (jn2 jn3 : GitHubActions.JobNode)
    (e2 : GitHubActions.compileJob (Elem.ghJob jp2 []) = Except.ok (some jn2))
    (e3 : GitHubActions.compileJob (Elem.ghJob jp3 []) = Except.ok (some jn3)) :
    GitHubActions.compilePipeline
        (Elem.ghWorkflow w (some [Elem.ghJob jp1 [], Elem.ghJob jp2 []])) =
      Except.ok (some ⟨w.name, w.runName, w.onTriggers, w.permissions, w.env,
        w.defaults, w.concurrency, [(i, jn2)]⟩) ∧
    GitHubActions.compilePipeline (Elem.ghWorkflow w (some [Elem.ghJob jp3 []])) =
      Except.ok (some ⟨w.name, w.runName, w.onTriggers, w.permissions, w.env,
        w.defaults, w.concurrency, [("job", jn3)]⟩) := by
  constructor
  · have e1 : GitHubActions.compileJob (Elem.ghJob jp1 []) =
        Except.ok (some ⟨jp1.name, jp1.runsOn, jp1.needs, jp1.ifCond,
          jp1.permissions, jp1.env, jp1.defaults, jp1.strategy,
          jp1.continueOnError, jp1.timeoutMinutes, jp1.container, jp1.services,
          []⟩) := by
      simp [GitHubActions.compileJob, GitHubActions.collectSteps, collectStepsBy,
        resolveElement, Bind.bind, Except.bind, Pure.pure, Except.pure, List.mapM,
        List.mapM.loop]
    simp [GitHubActions.compilePipeline, GitHubActions.compileWorkflow, resolveElement,
      flattenChildren, isOfKindResolved, GitHubActions.isJobElement,
      Bind.bind, Except.bind, Pure.pure, Except.pure, List.filterM, List.foldlM,
      e1, e2, h1, h2, GitHubActions.jobKey, hi, insertAssign]
  · simp [GitHubActions.compilePipeline, GitHubActions.compileWorkflow, resolveElement,
      flattenChildren, isOfKindResolved, GitHubActions.isJobElement,
      Bind.bind, Except.bind, Pure.pure, Except.pure, List.filterM, List.foldlM,
      e3, h3, GitHubActions.jobKey, insertAssign]

/-- Witness for C10: two jobs with id `build` collapse to one record entry
holding the later job; a job without id is keyed `job`. -/
theorem c10_job_record_keying_and_overwrite_witness :
    (¬"build" = "" ∧
     GitHubActions.compileJob (Elem.ghJob { id := some "build", name := some "B2" } []) =
       Except.ok (some ⟨some "B2", none, none, none, none, none, none, none, none,
         none, none, none, []⟩) ∧
     GitHubActions.compileJob (Elem.ghJob {} []) =
       Except.ok (some ⟨none, none, none, none, none, none, none, none, none,
         none, none, none, []⟩)) ∧
    (GitHubActions.compilePipeline
        (Elem.ghWorkflow {} (some [Elem.ghJob { id := some "build" } [],
          Elem.ghJob { id := some "build", name := some "B2" } []])) =
      Except.ok (some ⟨none, none, none, none, none, none, none,
        [("build", ⟨some "B2", none, none, none, none, none, none, none, none,
          none, none, none, []⟩)]⟩) ∧
     GitHubActions.compilePipeline (Elem.ghWorkflow {} (some [Elem.ghJob {} []])) =
      Except.ok (some ⟨none, none, none, none, none, none, none,
        [("job", ⟨none, none, none, none, none, none, none, none, none,
          none, none, none, []⟩)]⟩)) := by
  have e2 : GitHubActions.compileJob
      (Elem.ghJob { id := some "build", name := some "B2" } []) =
      Except.ok (some ⟨some "B2", none, none, none, none, none, none, none, none,
        none, none, none, []⟩) := by
    simp [GitHubActions.compileJob, GitHubActions.collectSteps, collectStepsBy,
      resolveElement, Bind.bind, Except.bind, Pure.pure, Except.pure, List.mapM,
      List.mapM.loop]
  have e3 : GitHubActions.compileJob (Elem.ghJob {} []) =
      Except.ok (some ⟨none, none, none, none, none, none, none, none, none,
        none, none, none, []⟩) := by
    simp [GitHubActions.compileJob, GitHubActions.collectSteps, collectStepsBy,
      resolveElement, Bind.bind, Except.bind, Pure.pure, Except.pure, List.mapM,
      List.mapM.loop]
  exact ⟨⟨by decide, e2, e3⟩,
    c10_job_record_keying_and_overwrite {} { id := some "build" }
      { id := some "build", name := some "B2" } {} "build" (by decide)
      rfl rfl rfl _ _ e2 e3⟩

theorem collectStepsBy_append (isStep : Elem → Bool) (l1 l2 : List Elem) :
    collectStepsBy isStep (l1 ++ l2) =
      match collectStepsBy isStep l1 with
      | Except.error msg => Except.error msg
      | Except.ok a =>
        match collectStepsBy isStep l2 with
        | Except.error msg => Except.error msg
        | Except.ok b => Except.ok (a ++ b) := by
  induction l1 using collectStepsBy.induct isStep with
  | case1 => simp [collectStepsBy]; split <;> simp_all
  | case2 rest ih => simpa [collectStepsBy] using ih
  | case3 msg tail => simp [collectStepsBy]
  | case4 rest ih => simpa [collectStepsBy] using ih
  | case5 e rest ih => simpa [collectStepsBy] using ih
  | case6 child rest hne hce hcn hcs hstep msg hrest ih =>
    simp only [List.cons_append]
    simp [collectStepsBy, hne, hce, hcn, hcs, hstep, hrest, ih]
  | case7 child rest hne hce hcn hcs hstep tl hrest ih =>
    simp only [List.cons_append]
    simp [collectStepsBy, hne, hce, hcn, hcs, hstep, hrest, ih]
    cases hcl : collectStepsBy isStep l2 <;> simp_all
  | case8 child rest hne hce hcn hcs hstep msg hch ihch =>
    simp only [List.cons_append]
    simp [collectStepsBy, hne, hce, hcn, hcs, hstep, hch]
  | case9 child rest hne hce hcn hcs hstep tl hch msg hrest ihch ihrest =>
    simp only [List.cons_append]
    simp [collectStepsBy, hne, hce, hcn, hcs, hstep, hch, hrest, ihrest]
  | case10 child rest hne hce hcn hcs hstep tl hch tl2 hrest ihch ihrest =>
    simp only [List.cons_append]
    simp [collectStepsBy, hne, hce, hcn, hcs, hstep, hch, hrest, ihrest]
    cases hcl : collectStepsBy isStep l2 <;> simp_all


theorem adoSteps_disabled_invisible (sp : AzureDevOps.StepProps)
    (h : sp.enabled = some false) (a b : List Elem) :
    ((a ++ Elem.adoStep sp :: b).mapM AzureDevOps.compileStep).map (List.filterMap id) =
      ((a ++ b).mapM AzureDevOps.compileStep).map (List.filterMap id) := by
  induction a with
  | nil =>
    have hs : AzureDevOps.compileStep (Elem.adoStep sp) = Except.ok none := by
      simp [AzureDevOps.compileStep, resolveElement, Bind.bind, Except.bind, h,
        Pure.pure, Except.pure]
    simp only [List.nil_append, List.mapM_cons, hs]
    cases hb : b.mapM AzureDevOps.compileStep <;>
      simp [Bind.bind, Except.bind, Except.map, Pure.pure, Except.pure, hb]
  | cons x a ih =>
    simp only [List.cons_append, List.mapM_cons]
    cases hx : AzureDevOps.compileStep x <;>
      cases h1 : (a ++ Elem.adoStep sp :: b).mapM AzureDevOps.compileStep <;>
      cases h2 : (a ++ b).mapM AzureDevOps.compileStep <;>
      simp_all [Bind.bind, Except.bind, Except.map, Pure.pure, Except.pure,
        List.filterMap_cons]

/-- C3: A step whose `enabled` prop is explicitly set to a falsy value is
excluded from the compiled Azure DevOps step sequence without raising any
error — `_compileStep` yields `null` for it — and inserting such a step
anywhere among the children of a job leaves the compiled job exactly as if the
step were absent, so all remaining sibling steps keep their original
relative order. -/
theorem c3_disabled_step_silently_excluded (p : AzureDevOps.JobProps) (pre post : List Elem)
    (sp : AzureDevOps.StepProps) (h : sp.enabled = some false) :
    AzureDevOps.compileStep (Elem.adoStep sp) = Except.ok none ∧
    AzureDevOps.compileJob (Elem.adoJob p (pre ++ Elem.adoStep sp :: post)) =
      AzureDevOps.compileJob (Elem.adoJob p (pre ++ post)) := by
  have hs : AzureDevOps.compileStep (Elem.adoStep sp) = Except.ok none := by
    simp [AzureDevOps.compileStep, resolveElement, Bind.bind, Except.bind, h,
      Pure.pure, Except.pure]
  refine ⟨hs, ?_⟩
  simp only [AzureDevOps.compileJob, resolveElement, AzureDevOps.collectSteps,
    Bind.bind, Except.bind]
  rw [collectStepsBy_append, collectStepsBy_append AzureDevOps.isStepElement pre post]
  cases hpre : collectStepsBy AzureDevOps.isStepElement pre with
  | error msg => rfl
  | ok a =>
    have hcons : collectStepsBy AzureDevOps.isStepElement (Elem.adoStep sp :: post) =
        match collectStepsBy AzureDevOps.isStepElement post with
        | Except.error msg => Except.error msg
        | Except.ok tl => Except.ok (Elem.adoStep sp :: tl) := by
      simp [collectStepsBy, AzureDevOps.isStepElement]
    rw [hcons]
    cases hpost : collectStepsBy AzureDevOps.isStepElement post with
    | error msg => rfl
    | ok tl =>
      have key := adoSteps_disabled_invisible sp h a tl
      cases h1 : (a ++ Elem.adoStep sp :: tl).mapM AzureDevOps.compileStep <;>
        cases h2 : (a ++ tl).mapM AzureDevOps.compileStep <;>
        simp_all [Except.map]

/-- Witness for C3: a disabled step between two enabled ones vanishes from
the compiled sequence, which keeps the surviving steps in declaration
order. -/
theorem c3_disabled_step_silently_excluded_witness :
    ({ enabled := some false : AzureDevOps.StepProps }).enabled = some false ∧
    (AzureDevOps.compileStep (Elem.adoStep { enabled := some false }) = Except.ok none ∧
     AzureDevOps.compileJob (Elem.adoJob {}
        ([Elem.adoStep { task := some "A" }] ++
          Elem.adoStep { enabled := some false } ::
          [Elem.adoStep { task := some "B" }])) =
       AzureDevOps.compileJob (Elem.adoJob {}
        ([Elem.adoStep { task := some "A" }] ++ [Elem.adoStep { task := some "B" }]))) ∧
    AzureDevOps.compileJob (Elem.adoJob {}
        ([Elem.adoStep { task := some "A" }] ++ [Elem.adoStep { task := some "B" }])) =
      Except.ok (some ⟨none, none, none, none, none, none, none, none,
        [⟨some "A", none, none, none, none, none⟩,
         ⟨some "B", none, none, none, none, none⟩]⟩) :=
  ⟨rfl,
   c3_disabled_step_silently_excluded {} [Elem.adoStep { task := some "A" }]
     [Elem.adoStep { task := some "B" }] { enabled := some false } rfl,
   by
     simp [AzureDevOps.compileJob, AzureDevOps.collectSteps, collectStepsBy,
       AzureDevOps.isStepElement, AzureDevOps.compileStep, resolveElement,
       Bind.bind, Except.bind, Pure.pure, Except.pure, List.mapM, List.mapM.loop]⟩

/-- C6: If a user-defined expansion rule throws during compilation, the error
propagates unmodified out of `renderPipeline` and aborts the whole
compilation — the result is exactly `error msg`, never a partial serialized
document and never silently `null` — on both platforms, regardless of the
sibling steps collected before the throwing node. -/
theorem c6_rule_error_propagates_unmodified (msg : String)
    (wp : GitHubActions.WorkflowProps) (jp : GitHubActions.JobProps)
    (pre a : List Elem)
    (hpre : GitHubActions.collectSteps pre = Except.ok a)
    (pp : AzureDevOps.PipelineProps) (ap : AzureDevOps.JobProps)
    (pre2 a2 : List Elem)
    (hpre2 : AzureDevOps.collectSteps pre2 = Except.ok a2) :
    renderPipeline (Elem.ghWorkflow wp
        (some [Elem.ghJob jp (pre ++ [Elem.custom (Except.error msg)])])) =
      Except.error msg ∧
    renderPipeline (Elem.adoPipeline pp
        (some [Elem.adoJob ap (pre2 ++ [Elem.custom (Except.error msg)])])) =
      Except.error msg := by
  simp only [GitHubActions.collectSteps] at hpre
  simp only [AzureDevOps.collectSteps] at hpre2
  constructor
  · have hcol : collectStepsBy GitHubActions.isStepElement
        (pre ++ [Elem.custom (Except.error msg)]) = Except.error msg := by
      rw [collectStepsBy_append, hpre]
      simp [collectStepsBy]
    have hjob : GitHubActions.compileJob
        (Elem.ghJob jp (pre ++ [Elem.custom (Except.error msg)])) =
        Except.error msg := by
      simp [GitHubActions.compileJob, resolveElement, GitHubActions.collectSteps,
        Bind.bind, Except.bind, hcol]
    simp [renderPipeline, getRenderer, renderers, canRender, AzureDevOps.canRender,
      GitHubActions.canRender, GitHubActions.compilePipeline,
      GitHubActions.compileWorkflow, resolveElement, flattenChildren,
      isOfKindResolved, GitHubActions.isJobElement, Bind.bind, Except.bind,
      Pure.pure, Except.pure, List.filterM, List.foldlM, hjob]
  · have hcol : collectStepsBy AzureDevOps.isStepElement
        (pre2 ++ [Elem.custom (Except.error msg)]) = Except.error msg := by
      rw [collectStepsBy_append, hpre2]
      simp [collectStepsBy]
    have hjob : AzureDevOps.compileJob
        (Elem.adoJob ap (pre2 ++ [Elem.custom (Except.error msg)])) =
        Except.error msg := by
      simp [AzureDevOps.compileJob, resolveElement, AzureDevOps.collectSteps,
        Bind.bind, Except.bind, hcol]
    simp [renderPipeline, getRenderer, renderers, canRender, AzureDevOps.canRender,
      GitHubActions.canRender, AzureDevOps.compilePipeline,
      AzureDevOps.compilePipelineCore, resolveElement, flattenChildren,
      isOfKindResolved, AzureDevOps.isStageElement, AzureDevOps.isJobElement,
      AzureDevOps.isStepElement, Bind.bind, Except.bind,
      Pure.pure, Except.pure, List.filterM, List.mapM, List.mapM.loop, hjob]

/-- Witness for C6 with a concrete throwing rule inside a job of each
platform. -/
theorem c6_rule_error_propagates_unmodified_witness :
    (GitHubActions.collectSteps [] = Except.ok [] ∧
     AzureDevOps.collectSteps [] = Except.ok []) ∧
    (renderPipeline (Elem.ghWorkflow {}
        (some [Elem.ghJob {} ([] ++ [Elem.custom (Except.error "boom")])])) =
      Except.error "boom" ∧
     renderPipeline (Elem.adoPipeline {}
        (some [Elem.adoJob {} ([] ++ [Elem.custom (Except.error "boom")])])) =
      Except.error "boom") := by
  have h1 : GitHubActions.collectSteps [] = Except.ok [] := by
    simp [GitHubActions.collectSteps, collectStepsBy]
  have h2 : AzureDevOps.collectSteps [] = Except.ok [] := by
    simp [AzureDevOps.collectSteps, collectStepsBy]
  exact ⟨⟨h1, h2⟩,
    c6_rule_error_propagates_unmodified "boom" {} {} [] [] h1 {} {} [] [] h2⟩

theorem stepLeaves_of_step (isStep : Elem → Bool) (child : Elem)
    (hstep : isStep child = true)
    (hne : child = Elem.nonElement → False)
    (hce : ∀ msg, child = Elem.custom (Except.error msg) → False)
    (hcn : child = Elem.custom (Except.ok none) → False)
    (hcs : ∀ e, child = Elem.custom (Except.ok (some e)) → False) :
    stepLeaves isStep child = [child] := by
  cases child with
  | fragment cs => simp [stepLeaves, hstep]
  | adoPipeline p c => cases c <;> simp [stepLeaves, hstep]
  | adoStage p cs => simp [stepLeaves, hstep]
  | adoJob p cs => simp [stepLeaves, hstep]
  | adoStep p => simp [stepLeaves, hstep]
  | ghWorkflow p c => cases c <;> simp [stepLeaves, hstep]
  | ghJob p cs => simp [stepLeaves, hstep]
  | ghStep p => simp [stepLeaves, hstep]
  | custom r =>
    rcases r with msg | o
    · exact absurd rfl (hce msg)
    · rcases o with _ | e
      · exact absurd rfl hcn
      · exact absurd rfl (hcs e)
  | nonElement => exact absurd rfl hne

theorem stepLeaves_of_not_step (isStep : Elem → Bool) (child : Elem)
    (hstep : ¬isStep child = true)
    (hne : child = Elem.nonElement → False)
    (hce : ∀ msg, child = Elem.custom (Except.error msg) → False)
    (hcn : child = Elem.custom (Except.ok none) → False)
    (hcs : ∀ e, child = Elem.custom (Except.ok (some e)) → False) :
    stepLeaves isStep child = stepLeavesList isStep (childrenOf child) := by
  cases child with
  | fragment cs => simp [stepLeaves, childrenOf, hstep]
  | adoPipeline p c => cases c <;> simp [stepLeaves, childrenOf, stepLeavesList, hstep]
  | adoStage p cs => simp [stepLeaves, childrenOf, hstep]
  | adoJob p cs => simp [stepLeaves, childrenOf, hstep]
  | adoStep p => simp [stepLeaves, childrenOf, stepLeavesList, hstep]
  | ghWorkflow p c => cases c <;> simp [stepLeaves, childrenOf, stepLeavesList, hstep]
  | ghJob p cs => simp [stepLeaves, childrenOf, hstep]
  | ghStep p => simp [stepLeaves, childrenOf, stepLeavesList, hstep]
  | custom r =>
    rcases r with msg | o
    · exact absurd rfl (hce msg)
    · rcases o with _ | e
      · exact absurd rfl hcn
      · exact absurd rfl (hcs e)
  | nonElement => exact absurd rfl hne


/-- C1: The step collector returns exactly the `Step` descendants of the
given subtree, in original declaration (document) order, no matter how
deeply they are nested under fragments and user-defined components: whenever
`collectStepsBy` succeeds, its output is precisely the spec-side
`stepLeavesList` — the document-order list of step leaves after full
expansion (so the count of collected steps is exactly the number N of step
descendants).  Moreover, flattening a fragment splices its children in place,
preserving sibling order.  The fragment-splice conjunct assumes the platform
step test rejects fragments, which holds for both platforms. -/
theorem c1_collector_returns_leaves_in_order (isStep : Elem → Bool)
    (hf : ∀ cs, isStep (Elem.fragment cs) = false)
    (l out : List Elem)
    (h : collectStepsBy isStep l = Except.ok out) :
    out = stepLeavesList isStep l ∧
    (∀ cs rest, stepLeavesList isStep (Elem.fragment cs :: rest) =
      stepLeavesList isStep cs ++ stepLeavesList isStep rest) := by
  constructor
  · clear hf
    induction l using collectStepsBy.induct isStep generalizing out with
    | case1 =>
      simp [collectStepsBy] at h
      simp [stepLeavesList, h]
    | case2 rest ih =>
      simp only [collectStepsBy] at h
      simp [stepLeavesList, stepLeaves, ih out h]
    | case3 msg tail =>
      simp [collectStepsBy] at h
    | case4 rest ih =>
      simp only [collectStepsBy] at h
      simp [stepLeavesList, stepLeaves, ih out h]
    | case5 e rest ih =>
      simp only [collectStepsBy] at h
      simp only [stepLeavesList, stepLeaves]
      have := ih out h
      simpa [stepLeavesList] using this
    | case6 child rest hne hce hcn hcs hstep msg hrest ih =>
      simp [collectStepsBy, hne, hce, hcn, hcs, hstep, hrest] at h
    | case7 child rest hne hce hcn hcs hstep tl hrest ih =>
      simp [collectStepsBy, hne, hce, hcn, hcs, hstep, hrest] at h
      simp [stepLeavesList, stepLeaves_of_step isStep child hstep hne hce hcn hcs,
        h.symm, ih tl hrest]
    | case8 child rest hne hce hcn hcs hstep msg hch ihch =>
      simp [collectStepsBy, hne, hce, hcn, hcs, hstep, hch] at h
    | case9 child rest hne hce hcn hcs hstep tl hch msg hrest ihch ihrest =>
      simp [collectStepsBy, hne, hce, hcn, hcs, hstep, hch, hrest] at h
    | case10 child rest hne hce hcn hcs hstep tl hch tl2 hrest ihch ihrest =>
      simp [collectStepsBy, hne, hce, hcn, hcs, hstep, hch, hrest] at h
      simp [stepLeavesList, stepLeaves_of_not_step isStep child hstep hne hce hcn hcs,
        h.symm, ihch tl hch, ihrest tl2 hrest]
  · intro cs rest
    simp [stepLeavesList, stepLeaves, hf]

/-- Witness for C1: a job subtree with four steps nested under a fragment, a
user-defined component expanding to a further fragment, and a skipped
non-element child collects exactly those four steps in declaration order;
the spec-side leaf list agrees, and fragment flattening splices in place. -/
theorem c1_collector_returns_leaves_in_order_witness :
    (∀ cs, GitHubActions.isStepElement (Elem.fragment cs) = false) ∧
    collectStepsBy GitHubActions.isStepElement
      [Elem.fragment [Elem.ghStep { name := some "s1" },
         Elem.custom (Except.ok (some (Elem.fragment
           [Elem.ghStep { name := some "s2" }, Elem.ghStep { name := some "s3" }])))],
       Elem.nonElement, Elem.ghStep { name := some "s4" }] =
      Except.ok [Elem.ghStep { name := some "s1" }, Elem.ghStep { name := some "s2" },
        Elem.ghStep { name := some "s3" }, Elem.ghStep { name := some "s4" }] ∧
    [Elem.ghStep { name := some "s1" }, Elem.ghStep { name := some "s2" },
     Elem.ghStep { name := some "s3" }, Elem.ghStep { name := some "s4" }] =
      stepLeavesList GitHubActions.isStepElement
        [Elem.fragment [Elem.ghStep { name := some "s1" },
           Elem.custom (Except.ok (some (Elem.fragment
             [Elem.ghStep { name := some "s2" }, Elem.ghStep { name := some "s3" }])))],
         Elem.nonElement, Elem.ghStep { name := some "s4" }] := by
  have hf : ∀ cs, GitHubActions.isStepElement (Elem.fragment cs) = false :=
    fun _ => rfl
  have h : collectStepsBy GitHubActions.isStepElement
      [Elem.fragment [Elem.ghStep { name := some "s1" },
         Elem.custom (Except.ok (some (Elem.fragment
           [Elem.ghStep { name := some "s2" }, Elem.ghStep { name := some "s3" }])))],
       Elem.nonElement, Elem.ghStep { name := some "s4" }] =
      Except.ok [Elem.ghStep { name := some "s1" }, Elem.ghStep { name := some "s2" },
        Elem.ghStep { name := some "s3" }, Elem.ghStep { name := some "s4" }] := by
    simp [collectStepsBy, childrenOf, GitHubActions.isStepElement]
  exact ⟨hf, h, (c1_collector_returns_leaves_in_order GitHubActions.isStepElement
    hf _ _ h).1⟩
